import Mathlib

/-!
# Verification of the poor-man-dns query pipeline and blocklist manager

A shallow embedding, in Lean 4, of the resolver pipeline of
`app/servers/base.py` (`BaseHandler.handle_request`, `BaseHandler.forward_dns`,
`BaseHandler.upstream_doh`) and of the blocklist manager of
`app/helpers/adsblock.py` (`AdsBlock.extract`, `AdsBlock.parse`,
`AdsBlock.fetch`, `ADSServer.load`, `ADSServer.get_or_set`).

Python strings are modelled as Lean `String`; the handful of Python string
methods the source uses (`strip`, `split`, `startswith`, `endswith`,
`replace`, `split(sep)`) are re-implemented here over `String.data`
(`List Char`) by structural recursion, so that every definition evaluates
inside the kernel.  Network effects (the UDP forwarder, the upstream DoH
request) are passed in as explicit oracles; logging is dropped; the sqlite
counter upserts are collected in an output list.  Exceptions are modelled with
`Except`: a value `Except.error ()` is an exception that escapes the modelled
function.
-/

namespace PMD

/-! ## Python string primitives, modelled over `List Char` -/

/-- Whitespace characters recognised by Python `str.strip()` / `str.split()`
(ASCII fragment, which covers the inputs of this program). -/
def pyIsWs (c : Char) : Bool :=
  c = ' ' || c = '\t' || c = '\n' || c = '\r' || c = '\x0b' || c = '\x0c'

/-- Drop leading whitespace of a character list. -/
def dropWs : List Char → List Char
  | [] => []
  | c :: cs => if pyIsWs c then dropWs cs else c :: cs

/-- Python `str.strip()`: remove leading and trailing whitespace. -/
def pyStrip (s : String) : String :=
  ⟨((dropWs ((dropWs s.data).reverse)).reverse)⟩

/-- Helper of `pySplitWs`: split on runs of whitespace, discarding empties,
with an accumulator holding the (reversed) current token. -/
def splitWsAux : List Char → List Char → List (List Char)
  | [], acc => if acc.isEmpty then [] else [acc.reverse]
  | c :: cs, acc =>
    if pyIsWs c then
      if acc.isEmpty then splitWsAux cs [] else acc.reverse :: splitWsAux cs []
    else splitWsAux cs (c :: acc)

/-- Python `str.split()` with no argument: split on whitespace runs,
no empty tokens. -/
def pySplitWs (s : String) : List String :=
  (splitWsAux s.data []).map String.mk

/-- Helper of `pySplitOn`: split on a separator character, keeping empties. -/
def splitCharAux (sep : Char) : List Char → List Char → List (List Char)
  | [], acc => [acc.reverse]
  | c :: cs, acc =>
    if c = sep then acc.reverse :: splitCharAux sep cs []
    else splitCharAux sep cs (c :: acc)

/-- Python `str.split(sep)` for a one-character separator: empty parts are
kept, and the result is always nonempty. -/
def pySplitOn (s : String) (sep : Char) : List String :=
  (splitCharAux sep s.data []).map String.mk

/-- Python `str.startswith(pre)`. -/
def pyStartsWith (s pre : String) : Bool :=
  pre.data.isPrefixOf s.data

/-- Python `str.endswith(post)`. -/
def pyEndsWith (s post : String) : Bool :=
  post.data.isSuffixOf s.data

/-- Helper of `pyReplace`: replace every non-overlapping occurrence of `old`
(nonempty) by `new`, scanning left to right; `fuel` bounds the recursion and
is instantiated with the length of the subject. -/
def replaceAux (old new : List Char) : Nat → List Char → List Char
  | 0, s => s
  | _ + 1, [] => []
  | fuel + 1, c :: cs =>
    if old.isPrefixOf (c :: cs) then
      new ++ replaceAux old new fuel ((c :: cs).drop old.length)
    else
      c :: replaceAux old new fuel cs

/-- Python `str.replace(old, new)` for nonempty `old`: every occurrence is
replaced, not only a leading or trailing one. -/
def pyReplace (s old new : String) : String :=
  ⟨replaceAux old.data new.data s.data.length s.data⟩

/-- ASCII lowercasing of one character, as Python `str.lower` acts on the
ASCII range (the inputs of this program). -/
def asciiLower (c : Char) : Char :=
  if 'A' ≤ c && c ≤ 'Z' then Char.ofNat (c.toNat + 32) else c

/-- Python `str.lower()` on ASCII text. -/
def pyLower (s : String) : String :=
  ⟨s.data.map asciiLower⟩

/-! ## DNS data model

Wire-level detail of `dns.message.Message` is abstracted to the parts the
pipeline inspects or constructs: the question (name and type) and, for
responses, the response code and the answer section. -/

/-- The record types the pipeline distinguishes (`dns.rdatatype`).  `AAAA`
stands in for every type other than `A` and `PTR`. -/
inductive QType where
  | A
  | PTR
  | AAAA
  deriving DecidableEq, Repr

/-- `dns.rdatatype.to_text` for the modelled types. -/
def qtypeText : QType → String
  | .A => "A"
  | .PTR => "PTR"
  | .AAAA => "AAAA"

/-- One rrset of an answer section, as built by `dns.rrset.from_text`. -/
structure RRset where
  name : String
  ttl : Nat
  rdclass : String
  rdtype : QType
  rdata : String
  deriving DecidableEq, Repr

/-- A DNS response: response code plus answer section. -/
structure Response where
  rcode : Nat
  answer : List RRset
  deriving DecidableEq, Repr

/-- `dns.rcode` numeric values used by the pipeline. -/
def NOERROR : Nat := 0

/-- `dns.rcode.FORMERR`. -/
def FORMERR : Nat := 1

/-- `dns.rcode.SERVFAIL`. -/
def SERVFAIL : Nat := 2

/-- `dns.rcode.NXDOMAIN`. -/
def NXDOMAIN : Nat := 3

/-- The first question of a query: `question[0].name` (with trailing dot, as
`str(dns.name.Name)` renders it) and `question[0].rdtype`. -/
structure Question where
  qname : String
  qtype : QType
  deriving DecidableEq, Repr

/-- The wire bytes handed to `handle_request`, abstracted to what
`dns.message.from_wire` yields on them: either an exception, or a decodable
message carrying a (possibly empty) question section.  `from_wire` succeeds
on response messages too, so a decodable message is either a query (QR flag
clear, `decoded`) or a response (QR flag set, `responseMsg`); the
distinction matters because `dns.message.make_response(dns_query)` raises
`dns.exception.FormError` when `dns_query` has the QR flag set. -/
inductive WireInput where
  | undecodable
  | decoded (questions : List Question)
  | responseMsg (questions : List Question)
  deriving DecidableEq, Repr

/-- Whether the decoded message has the QR flag set, i.e.
`dns_query.flags & dns.flags.QR` is nonzero, the condition under which
`dns.message.make_response` raises. -/
def WireInput.isResponse : WireInput → Bool
  | .responseMsg _ => true
  | _ => false

/-- Outcome of the UDP exchange with a forwarder inside `forward_dns`:
a decoded response, an `asyncio.TimeoutError`, or any other exception. -/
inductive ForwardNet where
  | ok (resp : Response)
  | timeout
  | failure
  deriving DecidableEq, Repr

/-- Outcome of the DoH request inside `upstream_doh`: a decoded response, an
`httpx` transport or status error, or any other exception. -/
inductive UpstreamNet where
  | ok (resp : Response)
  | httpError
  | failure
  deriving DecidableEq, Repr

/-! ## Server configuration and pipeline state

`BaseServer.__init__` copies `config.forward` (fields `dns` and `custom`),
`config.cache` and `config.upstream` onto the server, and the handler reads
the blocked set through `self.server.adsblock.get_blocked_domains()` and the
response cache through `self.server.adsblock.get`.  All of it is gathered in
one record here.  Python `dict` and `set` are modelled as association list
and list. -/

/-- The configured state `handle_request` consults. -/
structure ServerCfg where
  /-- `self.server.forward.dns`: the raw forward rule strings. -/
  forwardDns : List String
  /-- `self.server.forward.custom`: the custom answer map. -/
  forwardCustom : List (String × String)
  /-- `self.server.adsblock.get_blocked_domains()`. -/
  blocked : List String
  /-- `self.server.cache.enable`. -/
  cacheEnable : Bool
  /-- The response cache content: cached answer sections by cache key. -/
  cacheLookup : String → Option (List RRset)

/-- Python dict lookup on an association list. -/
def lookup : List (String × String) → String → Option String
  | [], _ => none
  | (k, v) :: rest, key => if k = key then some v else lookup rest key

/-! ### Rdata text validation

`dns.rrset.from_text(name, ttl, rdclass, rdtype, text)` parses `text` by the
presentation rules of `rdtype` and raises `dns.exception.SyntaxError` when it
does not parse.  The custom stage uses it with `rdtype` either `A` or `PTR`,
so those two grammars are modelled. -/

/-- Numeric value of a digit string. -/
def digitsVal (cs : List Char) : Nat :=
  cs.foldl (fun n c => n * 10 + (c.toNat - '0'.toNat)) 0

/-- One dotted-quad part, as accepted by `dns.ipv4.inet_aton`: nonempty,
digits only, no superfluous leading zero, value at most 255. -/
def ipv4PartOk (p : String) : Bool :=
  p ≠ "" && p.data.all (fun c => '0' ≤ c && c ≤ '9')
    && (p.data.length == 1 || p.data.head? != some '0')
    && digitsVal p.data ≤ 255

/-- `dns.ipv4.inet_aton` succeeds: exactly four acceptable parts. -/
def isIPv4Text (s : String) : Bool :=
  match pySplitOn s '.' with
  | [a, b, c, d] => ipv4PartOk a && ipv4PartOk b && ipv4PartOk c && ipv4PartOk d
  | _ => false

/-- `dns.name.from_text` succeeds on plain ASCII text (no escapes, the form
this program's config uses): the root `.`, or dot-separated nonempty labels
of at most 63 octets, optionally with one trailing dot. -/
def isNameText (s : String) : Bool :=
  if s = "." then true
  else
    let parts := pySplitOn s '.'
    let parts := if parts.getLast? = some "" then parts.dropLast else parts
    !parts.isEmpty && parts.all (fun p => p ≠ "" && p.data.length ≤ 63)

/-- Whether `dns.rrset.from_text` accepts `text` as rdata of the given type:
an IPv4 dotted-quad literal for `A`, a domain name for `PTR`.  The custom
stage never builds another type, so `AAAA` stands for the unused rest. -/
def rdataParses : QType → String → Bool
  | .A, s => isIPv4Text s
  | .PTR, s => isNameText s
  | .AAAA, _ => false

/-- The outcome of one `handle_request` invocation: the returned response,
the sqlite counter upserts performed (`AdsBlockDomain.type` values, in
order), and whether the upstream DoH stage was entered. -/
structure HRResult where
  response : Response
  counters : List String
  upstreamIssued : Bool
  deriving DecidableEq, Repr

/-! ## `BaseHandler.forward_dns` -/

/-- The rule scan of `forward_dns`: skip falsy rules, unpack
`domain, servers = rule.split(":")` (a `ValueError` — modelled as
`Except.error` — when the split does not yield exactly two parts), and on the
first rule whose `domain + "."` is a suffix of the query name take the first
comma-separated server.  Returns `none` when no rule matches. -/
def findTarget (rules : List String) (queryName : String) :
    Except Unit (Option String) :=
  match rules with
  | [] => .ok none
  | rule :: rest =>
    if rule = "" then findTarget rest queryName
    else
      match pySplitOn rule ':' with
      | [domain, servers] =>
        if pyEndsWith queryName (domain ++ ".") then
          .ok (some ((pySplitOn servers ',').headD ""))
        else findTarget rest queryName
      | _ => .error ()

/-- `BaseHandler.forward_dns`, with the UDP exchange abstracted by the
oracle `net` from target server to outcome; `isResp` is whether the original
message has the QR flag set.  Returns the optional response together with
the counters recorded (`forward` is upserted before the send, so it is
recorded even when the exchange then fails).  On success the returned
message comes from the forwarder's wire bytes, with no `make_response`.  On
timeout or on any other exception the except suite calls
`dns.message.make_response(dns_query)` — which raises `FormError`,
uncaught, when the original message is a response — and sets `SERVFAIL` on
it; it does NOT return `None`. -/
def forward_dns (cfg : ServerCfg) (queryName : String) (isResp : Bool)
    (net : String → ForwardNet) :
    Except Unit (Option Response × List String) :=
  match findTarget cfg.forwardDns queryName with
  | .error e => .error e
  | .ok targetOpt =>
    -- `if not target_server: return None` (`None` and `""` are both falsy)
    match targetOpt with
    | none => .ok (none, [])
    | some target =>
      if target = "" then .ok (none, [])
      else
        match net target with
        | .ok resp => .ok (some resp, ["forward"])
        | .timeout =>
          if isResp then .error ()
          else .ok (some { rcode := SERVFAIL, answer := [] }, ["forward"])
        | .failure =>
          if isResp then .error ()
          else .ok (some { rcode := SERVFAIL, answer := [] }, ["forward"])

/-! ## `BaseHandler.handle_request` -/

/-- The parse stage: `dns.message.from_wire(data)` followed by
`dns_query.question[0]`.  Either step may raise (`from_wire` on undecodable
bytes, the indexing on an empty question section); both raises land in the
same `except Exception` handler, so both are modelled as `Except.error`.
The question of a decodable response message is extracted the same way —
the QR flag is not inspected here. -/
def parseQuery : WireInput → Except Unit Question
  | .undecodable => .error ()
  | .decoded [] => .error ()
  | .decoded (q :: _) => .ok q
  | .responseMsg [] => .error ()
  | .responseMsg (q :: _) => .ok q

/-- The custom-dns guard:
`query_name in self.server.forward.custom and query_type in ["PTR", "A"]`. -/
def customHit (cfg : ServerCfg) (q : Question) : Bool :=
  (lookup cfg.forwardCustom q.qname).isSome
    && (qtypeText q.qtype == "PTR" || qtypeText q.qtype == "A")

/-- The blocked guard:
`query_type == "PTR" or query_name in ...get_blocked_domains()`. -/
def blockedHit (cfg : ServerCfg) (q : Question) : Bool :=
  qtypeText q.qtype == "PTR" || cfg.blocked.contains q.qname

/-- The cache guard: `self.server.cache.enable` and a cached entry exists
under the cache key `f"{query_name}:{query_type}"`. -/
def cacheHit (cfg : ServerCfg) (q : Question) : Bool :=
  cfg.cacheEnable
    && (cfg.cacheLookup (q.qname ++ ":" ++ qtypeText q.qtype)).isSome

/-- `BaseHandler.handle_request`: the five-stage pipeline.  `net` is the
forwarder oracle; `upstream` the outcome of `upstream_doh` for this query
(its target selection is modelled separately by `pickCandidates`).
`Except.error` models an exception escaping to the calling listener; the
uncaught paths are the rule-unpacking `ValueError` of `forward_dns`, the
`FormError` that `dns.message.make_response` raises on a message with the
QR flag set (all of custom, blocked, cache-hit, the forwarder except suite
and the upstream error paths build their response from the query this way),
and the `SyntaxError` that `dns.rrset.from_text` raises for a custom value
that does not parse as rdata of the queried type.  For a response-input
that reaches the upstream stage, a successful reply follows the dns-message
mode (decoded from wire, no `make_response`). -/
def handle_request (cfg : ServerCfg) (w : WireInput)
    (net : String → ForwardNet) (upstream : UpstreamNet) :
    Except Unit HRResult :=
  match parseQuery w with
  | .error _ =>
    -- `except`: empty message, `set_rcode(FORMERR)`, no counter
    .ok { response := { rcode := FORMERR, answer := [] },
          counters := [], upstreamIssued := false }
  | .ok q =>
    let queryName := q.qname
    let queryType := qtypeText q.qtype
    let cacheKeyname := queryName ++ ":" ++ queryType
    if customHit cfg q then
      -- `make_response` first (raises on a response message), then
      -- `rrset.from_text` (raises on unparsable rdata), then the counter
      if w.isResponse then .error ()
      else
        let rdt := if queryType == "PTR" then QType.PTR else QType.A
        let v := (lookup cfg.forwardCustom queryName).getD ""
        if rdataParses rdt v then
          .ok { response :=
                  { rcode := NOERROR,
                    answer := [{ name := queryName, ttl := 300,
                                 rdclass := "IN", rdtype := rdt,
                                 rdata := v }] },
                counters := ["custom-hit"], upstreamIssued := false }
        else .error ()
    else if blockedHit cfg q then
      if w.isResponse then .error ()
      else
        .ok { response := { rcode := NXDOMAIN, answer := [] },
              counters := ["blacklisted"], upstreamIssued := false }
    else if cacheHit cfg q then
      if w.isResponse then .error ()
      else
        .ok { response := { rcode := NOERROR,
                            answer := (cfg.cacheLookup cacheKeyname).getD [] },
              counters := ["cache-hit"], upstreamIssued := false }
    else
      match forward_dns cfg queryName w.isResponse net with
      | .error e => .error e
      | .ok (some resp, cnts) =>
        .ok { response := resp, counters := cnts, upstreamIssued := false }
      | .ok (none, cnts) =>
        -- upstream doh: the `upstream` counter is upserted before the request
        match upstream with
        | .ok resp =>
          .ok { response := resp, counters := cnts ++ ["upstream"],
                upstreamIssued := true }
        | .httpError =>
          if w.isResponse then .error ()
          else
            .ok { response := { rcode := SERVFAIL, answer := [] },
                  counters := cnts ++ ["upstream"], upstreamIssued := true }
        | .failure =>
          if w.isResponse then .error ()
          else
            .ok { response := { rcode := SERVFAIL, answer := [] },
                  counters := cnts ++ ["upstream"], upstreamIssued := true }

/-! ## `BaseHandler.upstream_doh`: target selection

```
target_doh = self.server.upstream.doh.copy()
if self.server.last_target_doh in target_doh:
    target_doh.remove(self.server.last_target_doh)
target_doh = random.choice(target_doh) if target_doh else self.server.last_target_doh
self.server.last_target_doh = target_doh
```

`random.choice` is nondeterministic, so the selection is modelled by the
list of possible outcomes; a selection step may pick any member of
`pickCandidates pool last`, and `last_target_doh` then becomes that pick. -/

/-- The candidate targets of one upstream selection given the configured
pool and the current `last_target_doh` (`none` models Python `None`).
Python `list.remove` drops the FIRST occurrence only. -/
def pickCandidates (pool : List String) (last : Option String) : List String :=
  let target :=
    match last with
    | some l => if l ∈ pool then pool.erase l else pool
    | none => pool
  if target.isEmpty then
    match last with
    | some l => [l]
    | none => []
  else target

/-! ## `AdsBlock.extract` and `AdsBlock.parse` -/

/-- Python `set.add` on a duplicate-free list model of a set. -/
def setInsert (l : List String) (x : String) : List String :=
  if x ∈ l then l else x :: l

/-- The loop body of `AdsBlock.extract`, for one raw source line, acting on
the pair (buffer, count):

```
line = line.strip()
if line and not line.startswith(("!", "#")):
    domain = line.split()
    domain = domain[1] if len(domain) > 1 and not domain[1].startswith(("!", "#")) else domain[0]
    domain = domain.replace("||", "").replace("^", "") + "."
    buffer.add(domain)
    count += 1
```
-/
def extractStep (acc : List String × Nat) (rawLine : String) :
    List String × Nat :=
  let line := pyStrip rawLine
  if line ≠ "" && !(pyStartsWith line "!" || pyStartsWith line "#") then
    let tokens := pySplitWs line
    let tok1 := tokens.getD 1 ""
    let domain :=
      if decide (tokens.length > 1)
          && !(pyStartsWith tok1 "!" || pyStartsWith tok1 "#") then tok1
      else tokens.getD 0 ""
    let domain := (pyReplace (pyReplace domain "||" "") "^" "") ++ "."
    (setInsert acc.1 domain, acc.2 + 1)
  else acc

/-- `AdsBlock.extract(contents, buffer)`: fold `extractStep` over the lines
of `contents` (Python `splitlines`, modelled as splitting on newline; the
possible extra empty trailing line is skipped by the blank-line guard
anyway).  Returns the grown buffer and the per-call count. -/
def extract (contents : String) (buffer : List String) :
    List String × Nat :=
  (pySplitOn contents '\n').foldl extractStep (buffer, 0)

/-- Modelled from the spec sentence of C5, as amended: the domain contributed
by one source line, if any.  Trim; blank lines and lines beginning with `!`
or `#` contribute nothing; tokenize by whitespace; take the second token when
there are at least two tokens and the second is not `!`- or `#`-prefixed,
else the first; remove ALL occurrences of `||`, then ALL occurrences of `^`;
append a trailing dot. -/
def sourceLineDomain (rawLine : String) : Option String :=
  let line := pyStrip rawLine
  if line = "" || pyStartsWith line "!" || pyStartsWith line "#" then none
  else
    let chosen :=
      match pySplitWs line with
      | [] => ""
      | [t0] => t0
      | t0 :: t1 :: _ =>
        if pyStartsWith t1 "!" || pyStartsWith t1 "#" then t0 else t1
    some ((pyReplace (pyReplace chosen "||" "") "^" "") ++ ".")

/-- `AdsBlock.parse(type, domains)` acting on the blocked set: skip falsy
domains; for `blacklist`/`custom` add `f"{domain}."` when absent; for
`whitelist` remove it when present. -/
def parseDomains (ptype : String) (blocked : List String)
    (domains : List String) : List String :=
  domains.foldl
    (fun acc d =>
      if d = "" then acc
      else
        let buffer := d ++ "."
        if ptype == "blacklist" || ptype == "custom" then setInsert acc buffer
        else if ptype == "whitelist" then acc.erase buffer
        else acc)
    blocked

/-- The fetch loop of `AdsBlock.fetch`: each source contents string grows the
one shared buffer via `extract` (a failed URL re-extracts its last persisted
contents, so a source is simply represented by the contents string that got
extracted); the buffer then replaces `self.blocked`. -/
def fetchBuffer (sources : List String) : List String :=
  sources.foldl (fun buf contents => (extract contents buf).1) []

/-- The blocked set as published by `ADSServer.load` after a refresh:
`fetch`, then `parse("custom", ...)`, then `parse("whitelist", ...)`. -/
def publishedBlocked (sources customs whites : List String) : List String :=
  parseDomains "whitelist" (parseDomains "custom" (fetchBuffer sources) customs)
    whites

/-! ## `ADSServer.load`: the early-return guard

```
now = datetime.now(tz=timezone.utc)
updated_on = self.adsblock.cache()
if (not self.adsblock.reload and updated_on
        and now.date() < (updated_on + timedelta(days=1)).date()):
    return
```

Instants are modelled as minutes since the epoch in UTC; `.date()` is the
calendar day, i.e. division by 1440; `timedelta(days=1)` adds 1440. -/

/-- The calendar day (UTC) of an instant given in minutes. -/
def dayOf (t : Nat) : Nat := t / 1440

/-- The early-return condition of `ADSServer.load`: `reload` is the
configured force flag, `updatedOn` the timestamp of the prior successful
fetch (`none` when there is none), `now` the current instant. -/
def loadSkipsFetch (reload : Bool) (updatedOn : Option Nat) (now : Nat) :
    Bool :=
  !reload &&
    match updatedOn with
    | none => false
    | some u => decide (dayOf now < dayOf (u + 1440))

/-! ## `ADSServer.get_or_set`: the per-key locking protocol

```
def lock(self, key):
    if key not in self.locks:
        self.locks[key] = asyncio.Lock()
    return self.locks[key]

def unlock(self, key):
    if key in self.locks:
        self.locks.pop(key, None)

async def get_or_set(self, key, fetch_func):
    async with self.lock(key):
        result = await fetch_func()
    self.unlock(key)
    return result
```

N concurrent callers of `get_or_set` for one fingerprint are modelled as an
interleaving transition system.  Lock objects are numbered by creation order
(`gens`); `lockEntry` is the `self.locks` entry for the key (`none` when the
key is absent); `held g` records whether lock object `g` is held.  Each
caller walks through: look up or create the lock (`lock(key)`), await its
acquisition (`async with` entry), invoke `fetch_func()` (two transitions,
start and finish, since the coroutine suspends while the upstream request is
in flight), release the lock (`async with` exit), pop the dict entry
(`unlock(key)`), return.  `fetch_func()` of caller `i` is that caller's own
closure over its own query, so its invocation is recorded as the value `i`;
`fetchCalls` counts invocations of any `fetch_func`, i.e. upstream
computations issued; `firstDone` records whether some computation has
completed, which delimits the window of the first response. -/

/-- The program counter of one `get_or_set` caller. -/
inductive CallerPC where
  | idle
  | haveRef (g : Nat)
  | inLock (g : Nat)
  | computing (g : Nat)
  | computed (g : Nat)
  | released (g : Nat)
  | done
  deriving DecidableEq, Repr

/-- The lock object a program counter refers to, when any. -/
def CallerPC.lockRef : CallerPC → Option Nat
  | .haveRef g => some g
  | .inLock g => some g
  | .computing g => some g
  | .computed g => some g
  | .released g => some g
  | _ => none

/-- Whether the caller is between lock acquisition and computation end. -/
def CallerPC.isActive : CallerPC → Bool
  | .inLock _ => true
  | .computing _ => true
  | _ => false

/-- Whether the caller is at or past the end of its own computation. -/
def CallerPC.isPast : CallerPC → Bool
  | .computed _ => true
  | .released _ => true
  | .done => true
  | _ => false

/-- The shared state of the `get_or_set` protocol for one key. -/
structure SFState where
  pcs : List CallerPC
  lockEntry : Option Nat
  gens : Nat
  held : List Bool
  results : List (Option Nat)
  fetchCalls : Nat
  firstDone : Bool
  deriving DecidableEq, Repr

/-- Replace the program counter of caller `i`. -/
def SFState.setPc (s : SFState) (i : Nat) (pc : CallerPC) : SFState :=
  { s with pcs := s.pcs.set i pc }

/-- Set the held flag of lock object `g`. -/
def SFState.setHeld (s : SFState) (g : Nat) (b : Bool) : SFState :=
  { s with held := s.held.set g b }

/-- One interleaving step of some caller `i`. -/
inductive SFStep : SFState → SFState → Prop where
  /-- `lock(key)` with no entry present: create a fresh `asyncio.Lock`,
  install it under the key, keep a reference to it. -/
  | getLockNew (s : SFState) (i : Nat)
      (hpc : s.pcs.get? i = some .idle)
      (hnone : s.lockEntry = none) :
      SFStep s { s.setPc i (.haveRef s.gens) with
                 lockEntry := some s.gens, gens := s.gens + 1,
                 held := s.held ++ [false] }
  /-- `lock(key)` with an entry present: keep a reference to that object. -/
  | getLockExisting (s : SFState) (i g : Nat)
      (hpc : s.pcs.get? i = some .idle)
      (hsome : s.lockEntry = some g) :
      SFStep s (s.setPc i (.haveRef g))
  /-- `async with` entry: acquire the referenced lock once it is free. -/
  | acquire (s : SFState) (i g : Nat)
      (hpc : s.pcs.get? i = some (.haveRef g))
      (hfree : s.held.get? g = some false) :
      SFStep s ((s.setPc i (.inLock g)).setHeld g true)
  /-- `result = await fetch_func()`: the computation is issued. -/
  | computeStart (s : SFState) (i g : Nat)
      (hpc : s.pcs.get? i = some (.inLock g)) :
      SFStep s { s.setPc i (.computing g) with fetchCalls := s.fetchCalls + 1 }
  /-- The computation of caller `i` completes with that caller's own
  result. -/
  | computeEnd (s : SFState) (i g : Nat)
      (hpc : s.pcs.get? i = some (.computing g)) :
      SFStep s { s.setPc i (.computed g) with
                 results := s.results.set i (some i), firstDone := true }
  /-- `async with` exit: release the lock. -/
  | release (s : SFState) (i g : Nat)
      (hpc : s.pcs.get? i = some (.computed g)) :
      SFStep s ((s.setPc i (.released g)).setHeld g false)
  /-- `unlock(key)`: pop whatever entry the dict currently holds. -/
  | unlock (s : SFState) (i g : Nat)
      (hpc : s.pcs.get? i = some (.released g)) :
      SFStep s { s.setPc i .done with lockEntry := none }

/-- Reachability in zero or more interleaving steps. -/
inductive SFReach (s0 : SFState) : SFState → Prop where
  | refl : SFReach s0 s0
  | step {s t : SFState} : SFReach s0 s → SFStep s t → SFReach s0 t

/-- The initial state for `n` concurrent callers: no lock exists, nobody has
computed anything. -/
def SFInit (n : Nat) : SFState :=
  { pcs := List.replicate n .idle, lockEntry := none, gens := 0, held := [],
    results := List.replicate n none, fetchCalls := 0, firstDone := false }

/-- The protocol invariant that holds while no computation has completed
(the window of the first response): no caller is past its own computation;
every lock reference points at the installed dict entry; at most one caller
is between acquisition and computation end, and it holds its lock. -/
def SFInv (s : SFState) : Prop :=
  s.firstDone = false →
    (∀ i pc, s.pcs.get? i = some pc →
      pc.isPast = false
      ∧ (∀ g, pc.lockRef = some g → s.lockEntry = some g)
      ∧ (pc.isActive = true → ∀ g, pc.lockRef = some g →
          s.held.get? g = some true))
    ∧ (∀ i j pci pcj, s.pcs.get? i = some pci → s.pcs.get? j = some pcj →
        pci.isActive = true → pcj.isActive = true → i = j)

/-! ## Concrete configurations and states used by witnesses and
counterexamples -/

/-- A server whose single forward rule is well-formed but matches nothing we
ask. -/
def cfgWellFormed : ServerCfg :=
  { forwardDns := ["test:1.2.3.4"], forwardCustom := [], blocked := [],
    cacheEnable := false, cacheLookup := fun _ => none }

/-- A server with one forward rule `test:10.0.0.1`, nothing custom, nothing
blocked, caching off. -/
def cfgForwardOnly : ServerCfg :=
  { forwardDns := ["test:10.0.0.1"], forwardCustom := [], blocked := [],
    cacheEnable := false, cacheLookup := fun _ => none }

/-- A server whose forward rule list holds the colon-free string `bad`. -/
def cfgBadRule : ServerCfg :=
  { forwardDns := ["bad"], forwardCustom := [], blocked := [],
    cacheEnable := false, cacheLookup := fun _ => none }

/-- A server on which `p.test.` is simultaneously a custom record and a
blocked domain. -/
def cfgCustomBlocked : ServerCfg :=
  { forwardDns := [], forwardCustom := [("p.test.", "1.2.3.4")],
    blocked := ["p.test."], cacheEnable := false,
    cacheLookup := fun _ => none }

/-- A server with only a blocked domain `b.test.`. -/
def cfgBlockedOnly : ServerCfg :=
  { forwardDns := [], forwardCustom := [], blocked := ["b.test."],
    cacheEnable := false, cacheLookup := fun _ => none }

/-- A server with only the custom record `h.test. -> 1.2.3.4`. -/
def cfgCustomOnly : ServerCfg :=
  { forwardDns := [], forwardCustom := [("h.test.", "1.2.3.4")],
    blocked := [], cacheEnable := false, cacheLookup := fun _ => none }

/-- A server carrying the always-present default custom map of the config
(`1.0.0.127.in-addr.arpa. -> localhost.` and `localhost. -> 127.0.0.1`). -/
def cfgDefaultCustom : ServerCfg :=
  { forwardDns := [],
    forwardCustom := [("1.0.0.127.in-addr.arpa.", "localhost."),
                      ("localhost.", "127.0.0.1")],
    blocked := [], cacheEnable := false, cacheLookup := fun _ => none }

/-- A server whose blocked set holds the lowercase `ads.example.com.`. -/
def cfgCaseBlocked : ServerCfg :=
  { forwardDns := [], forwardCustom := [], blocked := ["ads.example.com."],
    cacheEnable := false, cacheLookup := fun _ => none }

/-- A reachable protocol state in which caller 0 of two concurrent
`get_or_set` callers is inside its computation while caller 1 is still
waiting to acquire the lock; no computation has completed yet. -/
def sfComputingState : SFState :=
  { pcs := [.computing 0, .idle], lockEntry := some 0, gens := 1,
    held := [true], results := [none, none], fetchCalls := 1,
    firstDone := false }

/-- States of the complete two-caller interleaving of `get_or_set` in which
caller 1 looks the lock up before caller 0 finishes computing (so the two
calls are concurrent), numbered in execution order. -/
def sfTrace1 : SFState :=
  { pcs := [.haveRef 0, .idle], lockEntry := some 0, gens := 1,
    held := [false], results := [none, none], fetchCalls := 0,
    firstDone := false }

/-- Caller 1 has looked up the same lock object. -/
def sfTrace2 : SFState :=
  { pcs := [.haveRef 0, .haveRef 0], lockEntry := some 0, gens := 1,
    held := [false], results := [none, none], fetchCalls := 0,
    firstDone := false }

/-- Caller 0 holds the lock. -/
def sfTrace3 : SFState :=
  { pcs := [.inLock 0, .haveRef 0], lockEntry := some 0, gens := 1,
    held := [true], results := [none, none], fetchCalls := 0,
    firstDone := false }

/-- Caller 0 has issued the first upstream computation. -/
def sfTrace4 : SFState :=
  { pcs := [.computing 0, .haveRef 0], lockEntry := some 0, gens := 1,
    held := [true], results := [none, none], fetchCalls := 1,
    firstDone := false }

/-- The first computation has completed with caller 0 receiving its own
result. -/
def sfTrace5 : SFState :=
  { pcs := [.computed 0, .haveRef 0], lockEntry := some 0, gens := 1,
    held := [true], results := [some 0, none], fetchCalls := 1,
    firstDone := true }

/-- Caller 0 has released the lock. -/
def sfTrace6 : SFState :=
  { pcs := [.released 0, .haveRef 0], lockEntry := some 0, gens := 1,
    held := [false], results := [some 0, none], fetchCalls := 1,
    firstDone := true }

/-- Caller 0 has popped the dict entry and returned. -/
def sfTrace7 : SFState :=
  { pcs := [.done, .haveRef 0], lockEntry := none, gens := 1,
    held := [false], results := [some 0, none], fetchCalls := 1,
    firstDone := true }

/-- Caller 1, which was waiting, now acquires the (orphaned) lock object. -/
def sfTrace8 : SFState :=
  { pcs := [.done, .inLock 0], lockEntry := none, gens := 1,
    held := [true], results := [some 0, none], fetchCalls := 1,
    firstDone := true }

/-- Caller 1 issues a SECOND upstream computation. -/
def sfTrace9 : SFState :=
  { pcs := [.done, .computing 0], lockEntry := none, gens := 1,
    held := [true], results := [some 0, none], fetchCalls := 2,
    firstDone := true }

/-- The second computation completes with caller 1 receiving the result of
its own computation, not of the first one. -/
def sfTrace10 : SFState :=
  { pcs := [.done, .computed 0], lockEntry := none, gens := 1,
    held := [true], results := [some 0, some 1], fetchCalls := 2,
    firstDone := true }

/-- Caller 1 has released the lock. -/
def sfTrace11 : SFState :=
  { pcs := [.done, .released 0], lockEntry := none, gens := 1,
    held := [false], results := [some 0, some 1], fetchCalls := 2,
    firstDone := true }

/-- Both callers have returned: two computations were issued, and each
caller got the value of its own `fetch_func()` invocation. -/
def sfFinalState : SFState :=
  { pcs := [.done, .done], lockEntry := none, gens := 1,
    held := [false], results := [some 0, some 1], fetchCalls := 2,
    firstDone := true }

/-! ## Supporting lemmas for the pipeline -/

/-- Under well-formed forward rules, the rule scan cannot raise. -/
lemma findTarget_ok (rules : List String) (qname : String)
    (h : ∀ r ∈ rules, r ≠ "" → (pySplitOn r ':').length = 2) :
    ∃ t, findTarget rules qname = .ok t := by
  induction rules with
  | nil => exact ⟨none, rfl⟩
  | cons r rest ih =>
    unfold findTarget
    by_cases hr : r = ""
    · rw [if_pos hr]
      exact ih fun x hx => h x (List.mem_cons_of_mem _ hx)
    · obtain ⟨a, b, hab⟩ :=
        List.length_eq_two.mp (h r (List.mem_cons_self _ _) hr)
      rw [if_neg hr, hab]
      show ∃ t,
        (if pyEndsWith qname (a ++ ".") = true then
          Except.ok (some ((pySplitOn b ',').headD ""))
        else findTarget rest qname) = Except.ok t
      cases pyEndsWith qname (a ++ ".") with
      | true => exact ⟨_, rfl⟩
      | false =>
        rw [if_neg Bool.false_ne_true]
        exact ih fun x hx => h x (List.mem_cons_of_mem _ hx)

/-- A successful dict lookup means the pair is a map entry. -/
lemma lookup_mem {l : List (String × String)} {k v : String}
    (h : lookup l k = some v) : (k, v) ∈ l := by
  induction l with
  | nil => exact Option.noConfusion h
  | cons kv rest ih =>
    obtain ⟨a, b⟩ := kv
    unfold lookup at h
    by_cases ha : a = k
    · rw [if_pos ha] at h
      obtain rfl := Option.some_inj.mp h
      subst ha
      exact List.mem_cons_self _ _
    · rw [if_neg ha] at h
      exact List.mem_cons_of_mem _ (ih h)

/-- A custom hit owns a configured value. -/
lemma customHit_lookup {cfg : ServerCfg} {q : Question}
    (h : customHit cfg q = true) :
    ∃ v, lookup cfg.forwardCustom q.qname = some v := by
  unfold customHit at h
  obtain ⟨hsome, _⟩ := (Bool.and_eq_true _ _).mp h
  exact Option.isSome_iff_exists.mp hsome

/-- Under well-formed forward rules, `forward_dns` on a query (QR flag
clear) cannot raise. -/
lemma forward_dns_ok (cfg : ServerCfg) (qname : String)
    (net : String → ForwardNet)
    (h : ∀ r ∈ cfg.forwardDns, r ≠ "" → (pySplitOn r ':').length = 2) :
    ∃ p, forward_dns cfg qname false net = .ok p := by
  obtain ⟨t, ht⟩ := findTarget_ok cfg.forwardDns qname h
  unfold forward_dns
  rw [ht]
  match t with
  | none => exact ⟨_, rfl⟩
  | some target =>
    show ∃ p,
      (if target = "" then Except.ok (none, [])
      else
        match net target with
        | .ok resp => Except.ok (some resp, ["forward"])
        | .timeout =>
          Except.ok (some { rcode := SERVFAIL, answer := [] }, ["forward"])
        | .failure =>
          Except.ok (some { rcode := SERVFAIL, answer := [] }, ["forward"])) =
        Except.ok p
    by_cases hne : target = ""
    · exact ⟨_, by rw [if_pos hne]⟩
    · rw [if_neg hne]
      cases net target <;> exact ⟨_, rfl⟩

/-! ## C10 -/

/-- C10: a decodable DNS message with an empty question section makes
`dns_query.question[0]` raise `IndexError` inside the same `try` block that
guards `from_wire`; the shared `except Exception` handler returns an empty
message with `RCODE=FORMERR` and records no counter — exactly the outcome of
an undecodable message, and no exception escapes. -/
theorem empty_question_formerr (cfg : ServerCfg) (net : String → ForwardNet)
    (up : UpstreamNet) :
    handle_request cfg (.decoded []) net up =
      .ok { response := { rcode := FORMERR, answer := [] },
            counters := [], upstreamIssued := false }
    ∧ handle_request cfg .undecodable net up =
        handle_request cfg (.decoded []) net up :=
  ⟨rfl, rfl⟩

/-! ## C8 -/

/-- C8, counterexample: under the always-present default custom map, the
query `A 1.0.0.127.in-addr.arpa.` is a custom hit with qtype `A`, so the
claim demands an `RCODE=0` response whose single rrset carries the literal
`localhost.`; the code instead lets `dns.rrset.from_text` raise
`dns.exception.SyntaxError` — `localhost.` is not IPv4 rdata text — which
escapes `handle_request`: no response is returned and no counter is
recorded. -/
theorem custom_hit_counterexample :
    lookup cfgDefaultCustom.forwardCustom "1.0.0.127.in-addr.arpa."
      = some "localhost."
    ∧ handle_request cfgDefaultCustom
        (.decoded [⟨"1.0.0.127.in-addr.arpa.", .A⟩])
        (fun _ => .timeout) .failure = .error () :=
  ⟨rfl, rfl⟩

/-- C8 as amended: for every decodable query whose qname is in the custom
map and whose type is `A` or `PTR`, provided the configured value parses as
rdata text of the queried type (an IPv4 dotted-quad literal for `A`, a
domain name for `PTR`), the pipeline answers `RCODE=0` with exactly one
rrset of class `IN` and TTL 300 whose rdata is the configured literal,
records the `custom-hit` counter, and issues no upstream request; for a
value that does not parse, `dns.rrset.from_text` raises `SyntaxError`
uncaught instead. -/
theorem custom_hit_single_rrset (cfg : ServerCfg) (w : WireInput)
    (net : String → ForwardNet) (up : UpstreamNet) (q : Question) (v : String)
    (hparse : parseQuery w = .ok q)
    (hqr : w.isResponse = false)
    (hcust : lookup cfg.forwardCustom q.qname = some v)
    (htype : q.qtype = QType.A ∨ q.qtype = QType.PTR)
    (hrdata : rdataParses
        (if q.qtype = QType.PTR then QType.PTR else QType.A) v = true) :
    handle_request cfg w net up =
      .ok { response :=
              { rcode := NOERROR,
                answer := [{ name := q.qname, ttl := 300, rdclass := "IN",
                             rdtype := if q.qtype = QType.PTR then QType.PTR
                                       else QType.A,
                             rdata := v }] },
            counters := ["custom-hit"], upstreamIssued := false } := by
  obtain ⟨qn, qt⟩ := q
  unfold handle_request
  rw [hparse]
  rcases htype with h | h <;> simp only at h <;> subst h
  · have hr : rdataParses QType.A v = true := hrdata
    simp [customHit, qtypeText, hcust, hqr, hr]
  · have hr : rdataParses QType.PTR v = true := hrdata
    simp [customHit, qtypeText, hcust, hqr, hr]

/-- Witness for the amended C8 at the concrete configuration
`h.test. -> 1.2.3.4` and the query `A h.test.`. -/
theorem custom_hit_single_rrset_witness :
    lookup cfgCustomOnly.forwardCustom "h.test." = some "1.2.3.4"
    ∧ rdataParses QType.A "1.2.3.4" = true
    ∧ handle_request cfgCustomOnly (.decoded [⟨"h.test.", .A⟩])
        (fun _ => .timeout) .failure =
      .ok { response :=
              { rcode := NOERROR,
                answer := [{ name := "h.test.", ttl := 300, rdclass := "IN",
                             rdtype := QType.A, rdata := "1.2.3.4" }] },
            counters := ["custom-hit"], upstreamIssued := false } :=
  ⟨rfl, by decide,
   custom_hit_single_rrset cfgCustomOnly _ _ _ ⟨"h.test.", .A⟩ "1.2.3.4"
     rfl rfl rfl (Or.inl rfl) (by decide)⟩

/-! ## C4 -/

/-- C4, counterexample, exhibiting two divergences from the claim.
First: `p.test.` is in the blocked set AND the query type is `PTR`, so the
claim demands `RCODE=NXDOMAIN (3)`; but `p.test.` is also a custom record,
the custom stage precedes the blocked stage, and the actual response code
is `NOERROR (0)`.  Second: the membership test
`query_name in ...get_blocked_domains()` is case-sensitive on the
case-preserved qname, not on its lowercasing: for the query
`A ADS.example.com.` the LOWERCASED qname is a member of the blocked set,
yet the response is not `NXDOMAIN` and an upstream request IS issued. -/
theorem blocked_nxdomain_counterexample :
    (blockedHit cfgCustomBlocked ⟨"p.test.", .PTR⟩ = true
     ∧ (handle_request cfgCustomBlocked (.decoded [⟨"p.test.", .PTR⟩])
          (fun _ => .timeout) .failure).map (fun r => r.response.rcode) =
        .ok NOERROR)
    ∧ (pyLower "ADS.example.com." ∈ cfgCaseBlocked.blocked
       ∧ (handle_request cfgCaseBlocked
            (.decoded [⟨"ADS.example.com.", .A⟩]) (fun _ => .timeout)
            (.ok { rcode := NOERROR, answer := [] })).map
          (fun r => r.upstreamIssued) = .ok true) :=
  ⟨⟨rfl, rfl⟩, ⟨by decide, rfl⟩⟩

/-- C4 as amended: for every decodable query that does NOT hit the custom
stage, if the qname exactly as extracted — case preserved, the code never
lowercases it — is a member of the blocked set, or the query type is `PTR`,
the response is `RCODE=NXDOMAIN`, the `blacklisted` counter is recorded, and
no upstream request is issued. -/
theorem blocked_nxdomain (cfg : ServerCfg) (w : WireInput)
    (net : String → ForwardNet) (up : UpstreamNet) (q : Question)
    (hparse : parseQuery w = .ok q)
    (hqr : w.isResponse = false)
    (hcust : customHit cfg q = false)
    (hblock : blockedHit cfg q = true) :
    handle_request cfg w net up =
      .ok { response := { rcode := NXDOMAIN, answer := [] },
            counters := ["blacklisted"], upstreamIssued := false } := by
  unfold handle_request
  rw [hparse]
  simp [hcust, hblock, hqr]

/-- Witness for the amended C4 at a blocked-only configuration. -/
theorem blocked_nxdomain_witness :
    customHit cfgBlockedOnly ⟨"b.test.", .A⟩ = false
    ∧ blockedHit cfgBlockedOnly ⟨"b.test.", .A⟩ = true
    ∧ handle_request cfgBlockedOnly (.decoded [⟨"b.test.", .A⟩])
        (fun _ => .timeout) .failure =
      .ok { response := { rcode := NXDOMAIN, answer := [] },
            counters := ["blacklisted"], upstreamIssued := false } :=
  ⟨rfl, rfl,
   blocked_nxdomain cfgBlockedOnly _ _ _ ⟨"b.test.", .A⟩ rfl rfl rfl rfl⟩

/-! ## C2 -/

/-- C2, counterexample: the qname matches the forward rule, the forwarder
times out, and the supplied upstream oracle would answer `NOERROR`; yet the
pipeline returns the forwarder-stage `SERVFAIL` response and never enters
the upstream stage — it does not fall through to step 7. -/
theorem forward_failure_counterexample :
    handle_request cfgForwardOnly (.decoded [⟨"a.test.", .A⟩])
        (fun _ => .timeout) (.ok { rcode := NOERROR, answer := [] }) =
      .ok { response := { rcode := SERVFAIL, answer := [] },
            counters := ["forward"], upstreamIssued := false } :=
  rfl

/-- C2 as amended: when a query (QR flag clear) reaches the forward stage,
a rule matches with a nonempty target, and the UDP exchange times out or
raises, then `forward_dns` builds a `SERVFAIL` response which
`handle_request` returns to the client; the upstream DoH stage is not
entered. -/
theorem forward_failure_servfail (cfg : ServerCfg) (w : WireInput)
    (net : String → ForwardNet) (up : UpstreamNet) (q : Question)
    (target : String)
    (hparse : parseQuery w = .ok q)
    (hqr : w.isResponse = false)
    (hcust : customHit cfg q = false)
    (hblock : blockedHit cfg q = false)
    (hcache : cacheHit cfg q = false)
    (htarget : findTarget cfg.forwardDns q.qname = .ok (some target))
    (hne : target ≠ "")
    (hnet : net target = .timeout ∨ net target = .failure) :
    handle_request cfg w net up =
      .ok { response := { rcode := SERVFAIL, answer := [] },
            counters := ["forward"], upstreamIssued := false } := by
  have hfwd : forward_dns cfg q.qname false net =
      .ok (some { rcode := SERVFAIL, answer := [] }, ["forward"]) := by
    unfold forward_dns
    rw [htarget]
    rcases hnet with h | h <;> simp [hne, h]
  unfold handle_request
  rw [hparse]
  simp [hcust, hblock, hcache, hqr, hfwd]

/-- Witness for the amended C2 at the concrete configuration with forward
rule `test:10.0.0.1` and a timing-out forwarder. -/
theorem forward_failure_servfail_witness :
    findTarget cfgForwardOnly.forwardDns "a.test." = .ok (some "10.0.0.1")
    ∧ handle_request cfgForwardOnly (.decoded [⟨"a.test.", .A⟩])
        (fun _ => .timeout) .failure =
      .ok { response := { rcode := SERVFAIL, answer := [] },
            counters := ["forward"], upstreamIssued := false } :=
  ⟨rfl,
   forward_failure_servfail cfgForwardOnly _ _ _ ⟨"a.test.", .A⟩ "10.0.0.1"
     rfl rfl rfl rfl rfl rfl (by decide) (Or.inl rfl)⟩

/-! ## C3 -/

/-- C3, counterexample, one per uncaught exception path.  First: with the
string `bad` in the configured forward rule list, a decodable query that
reaches the forward stage makes `domain, servers = rule.split(":")` raise
`ValueError`.  Second: under the always-present default custom map, the
query `A 1.0.0.127.in-addr.arpa.` makes `dns.rrset.from_text` raise
`dns.exception.SyntaxError` — `localhost.` is not IPv4 rdata text.  Third:
a decodable message with the QR flag set that hits the blocked stage makes
`dns.message.make_response` raise `dns.exception.FormError`.  None of the
three is caught: the exception propagates to the calling listener instead
of a response being returned. -/
theorem pipeline_no_throw_counterexample :
    handle_request cfgBadRule (.decoded [⟨"x.test.", .A⟩])
        (fun _ => .timeout) .failure = .error ()
    ∧ handle_request cfgDefaultCustom
        (.decoded [⟨"1.0.0.127.in-addr.arpa.", .A⟩])
        (fun _ => .timeout) .failure = .error ()
    ∧ handle_request cfgBlockedOnly (.responseMsg [⟨"b.test.", .A⟩])
        (fun _ => .timeout) .failure = .error () :=
  ⟨rfl, rfl, rfl⟩

/-- C3 as amended: provided (i) every nonempty configured forward rule
splits on `:` into exactly two parts and (ii) every custom map value parses
as rdata text both as `A` and as `PTR`, `handle_request` returns a response
for every undecodable input and every decodable QUERY (QR flag clear), under
every oracle outcome, and never propagates an exception.  Outside these
conditions exceptions do escape to the listener: a reached malformed forward
rule raises `ValueError`, a type-incompatible custom value raises
`SyntaxError`, and a decodable message with the QR flag set raises
`FormError` at `make_response`. -/
theorem pipeline_no_throw (cfg : ServerCfg) (w : WireInput)
    (net : String → ForwardNet) (up : UpstreamNet)
    (hrules : ∀ r ∈ cfg.forwardDns, r ≠ "" → (pySplitOn r ':').length = 2)
    (hvals : ∀ kv ∈ cfg.forwardCustom,
      rdataParses QType.A kv.2 = true ∧ rdataParses QType.PTR kv.2 = true)
    (hqr : w.isResponse = false) :
    ∃ res, handle_request cfg w net up = .ok res := by
  rcases hp : parseQuery w with e | q
  · exact ⟨_, by unfold handle_request; rw [hp]⟩
  · unfold handle_request
    rw [hp]
    simp only []
    by_cases h1 : customHit cfg q = true
    · rw [if_pos h1, hqr, if_neg Bool.false_ne_true]
      obtain ⟨v, hv⟩ := customHit_lookup h1
      have hval := hvals _ (lookup_mem hv)
      rw [hv]
      simp only [Option.getD_some]
      cases hpt : (qtypeText q.qtype == "PTR") with
      | false =>
        rw [if_neg Bool.false_ne_true]
        have hA : rdataParses QType.A v = true := hval.1
        rw [hA]
        exact ⟨_, rfl⟩
      | true =>
        rw [if_pos rfl]
        have hP : rdataParses QType.PTR v = true := hval.2
        rw [hP]
        exact ⟨_, rfl⟩
    · rw [if_neg h1]
      by_cases h2 : blockedHit cfg q = true
      · rw [if_pos h2, hqr, if_neg Bool.false_ne_true]
        exact ⟨_, rfl⟩
      · rw [if_neg h2]
        by_cases h3 : cacheHit cfg q = true
        · rw [if_pos h3, hqr, if_neg Bool.false_ne_true]
          exact ⟨_, rfl⟩
        · rw [if_neg h3, hqr]
          obtain ⟨⟨ropt, cnts⟩, hfwd⟩ := forward_dns_ok cfg q.qname net hrules
          rw [hfwd]
          match ropt with
          | some resp => exact ⟨_, rfl⟩
          | none => cases up <;> exact ⟨_, rfl⟩

/-- Witness for the amended C3 at a well-formed one-rule configuration with
an empty custom map. -/
theorem pipeline_no_throw_witness :
    (∀ r ∈ cfgWellFormed.forwardDns, r ≠ "" → (pySplitOn r ':').length = 2)
    ∧ (∀ kv ∈ cfgWellFormed.forwardCustom,
        rdataParses QType.A kv.2 = true ∧ rdataParses QType.PTR kv.2 = true)
    ∧ ∃ res, handle_request cfgWellFormed (.decoded [⟨"x.y.", .A⟩])
        (fun _ => .timeout) .failure = .ok res :=
  ⟨by decide, by decide,
   pipeline_no_throw cfgWellFormed _ _ _ (by decide) (by decide) rfl⟩

/-! ## Supporting lemmas for the blocklist manager -/

/-- The loop body of `extract` processes one line exactly as the per-line
parsing function `sourceLineDomain` describes. -/
lemma extractStep_eq (acc : List String × Nat) (rawLine : String) :
    extractStep acc rawLine =
      match sourceLineDomain rawLine with
      | some d => (setInsert acc.1 d, acc.2 + 1)
      | none => acc := by
  unfold extractStep sourceLineDomain
  by_cases h0 : pyStrip rawLine = ""
  · simp [h0]
  · cases hb1 : pyStartsWith (pyStrip rawLine) "!"
    · cases hb2 : pyStartsWith (pyStrip rawLine) "#"
      · have hlen2 : ∀ (t0 t1 : String) (ts : List String),
            1 < (t0 :: t1 :: ts).length := by
          intro t0 t1 ts
          simp [List.length_cons]
        rcases htok : pySplitWs (pyStrip rawLine) with _ | ⟨t0, _ | ⟨t1, ts⟩⟩
        · simp [h0, hb1, hb2, htok]
        · simp [h0, hb1, hb2, htok]
        · cases hc1 : pyStartsWith t1 "!"
          · cases hc2 : pyStartsWith t1 "#"
            · simp [h0, hb1, hb2, htok, hc1, hc2, hlen2 t0 t1 ts]
            · simp [h0, hb1, hb2, htok, hc1, hc2]
          · simp [h0, hb1, hb2, htok, hc1]
      · simp [h0, hb1, hb2]
    · simp [h0, hb1]

/-- Folding the extract loop over a list of lines from any accumulator. -/
lemma extract_go (lines : List String) (buf : List String) (k : Nat) :
    lines.foldl extractStep (buf, k) =
      ((lines.filterMap sourceLineDomain).foldl setInsert buf,
       k + (lines.filterMap sourceLineDomain).length) := by
  induction lines generalizing buf k with
  | nil => simp
  | cons l ls ih =>
    simp only [List.foldl_cons, List.filterMap_cons, extractStep_eq]
    cases h : sourceLineDomain l with
    | none => simp [ih]
    | some d =>
      simp only [ih, List.foldl_cons, List.length_cons]
      exact Prod.ext rfl (by omega)

/-- Every domain produced by the per-line parser carries a trailing dot. -/
lemma sourceLineDomain_dot {rawLine d : String}
    (h : sourceLineDomain rawLine = some d) : ∃ t, d = t ++ "." := by
  simp only [sourceLineDomain] at h
  split at h
  · exact absurd h (by simp)
  · exact ⟨_, (Option.some_inj.mp h).symm⟩

/-- Membership after a pythonic set add. -/
lemma mem_setInsert {l : List String} {x y : String}
    (h : y ∈ setInsert l x) : y ∈ l ∨ y = x := by
  by_cases hx : x ∈ l
  · unfold setInsert at h
    rw [if_pos hx] at h
    exact Or.inl h
  · unfold setInsert at h
    rw [if_neg hx] at h
    rcases List.mem_cons.mp h with h2 | h2
    · exact Or.inr h2
    · exact Or.inl h2

/-- Membership after folding set adds over a list. -/
lemma mem_foldl_setInsert {ds : List String} {buf : List String} {y : String}
    (h : y ∈ ds.foldl setInsert buf) : y ∈ buf ∨ y ∈ ds := by
  induction ds generalizing buf with
  | nil => exact Or.inl h
  | cons d rest ih =>
    rcases ih (by simpa using h) with h2 | h2
    · rcases mem_setInsert h2 with h3 | h3
      · exact Or.inl h3
      · exact Or.inr (h3 ▸ List.mem_cons_self _ _)
    · exact Or.inr (List.mem_cons_of_mem _ h2)

/-- Every member of an extract result is an old member or dot-terminated. -/
lemma mem_extract {contents : String} {buf : List String} {y : String}
    (h : y ∈ (extract contents buf).1) : y ∈ buf ∨ ∃ t, y = t ++ "." := by
  unfold extract at h
  rw [extract_go] at h
  rcases mem_foldl_setInsert h with h2 | h2
  · exact Or.inl h2
  · obtain ⟨l, _, hl⟩ := List.mem_filterMap.mp h2
    exact Or.inr (sourceLineDomain_dot hl)

/-- Every member of the fetch buffer is dot-terminated. -/
lemma mem_fetchBuffer {sources : List String} {y : String}
    (h : y ∈ fetchBuffer sources) : ∃ t, y = t ++ "." := by
  unfold fetchBuffer at h
  suffices hgen : ∀ (srcs : List String) (buf : List String),
      y ∈ srcs.foldl (fun b c => (extract c b).1) buf →
      y ∈ buf ∨ ∃ t, y = t ++ "." by
    rcases hgen sources [] h with h2 | h2
    · exact absurd h2 (List.not_mem_nil y)
    · exact h2
  intro srcs
  induction srcs with
  | nil => exact fun buf hb => Or.inl hb
  | cons c rest ih =>
    intro buf hb
    rcases ih _ (by simpa using hb) with h2 | h2
    · exact mem_extract h2
    · exact Or.inr h2

/-- Every member after a `parse` pass is an old member or dot-terminated. -/
lemma mem_parseDomains {ptype : String} {blocked ds : List String}
    {y : String} (h : y ∈ parseDomains ptype blocked ds) :
    y ∈ blocked ∨ ∃ t, y = t ++ "." := by
  unfold parseDomains at h
  induction ds generalizing blocked with
  | nil => exact Or.inl h
  | cons d rest ih =>
    simp only [List.foldl_cons] at h
    rcases ih h with h2 | h2
    · split at h2
      · exact Or.inl h2
      · split at h2
        · rcases mem_setInsert h2 with h3 | h3
          · exact Or.inl h3
          · exact Or.inr ⟨d, h3⟩
        · split at h2
          · exact Or.inl (List.mem_of_mem_erase h2)
          · exact Or.inl h2
    · exact Or.inr h2

/-! ## C5 -/

/-- C5, counterexample: for the source line `||a^b^` the claim prescribes
stripping exactly the leading `||` and the trailing `^`, yielding `a^b.`;
the code's `str.replace` removes EVERY occurrence of `||` and of `^`, so the
buffer receives `ab.` and not `a^b.`. -/
theorem extract_line_counterexample :
    extract "||a^b^" [] = (["ab."], 1)
    ∧ "a^b." ∉ (extract "||a^b^" []).1 := by
  exact ⟨rfl, by decide⟩

/-- C5 as amended: `extract` processes each source line by: trim; drop blank
lines and lines beginning with `!` or `#`; tokenize by whitespace; take the
second token when there are at least two tokens and the second is not `!`-
or `#`-prefixed, else the first; remove ALL occurrences of `||` and then ALL
occurrences of `^`; append a trailing dot; add the result to the buffer set.
The count is the number of contributing lines. -/
theorem extract_follows_line_rule (contents : String) (buffer : List String) :
    extract contents buffer =
      (((pySplitOn contents '\n').filterMap sourceLineDomain).foldl
         setInsert buffer,
       ((pySplitOn contents '\n').filterMap sourceLineDomain).length) := by
  unfold extract
  rw [extract_go]
  simp

/-! ## C6 -/

/-- C6, counterexample: a source whose single line is `AdS.com` publishes
the element `AdS.com.`, which contains uppercase letters — the blocked set
is NOT lowercased by `extract`, `parse` or `fetch`. -/
theorem blocked_set_lowercase_counterexample :
    "AdS.com." ∈ publishedBlocked ["AdS.com"] [] []
    ∧ ("AdS.com.".data.any Char.isUpper) = true := by
  decide

/-- C6 as amended: every element of the published blocked set — the union of
all parsed source domains and custom additions minus the whitelist — ends
with a literal dot (in whatever case the source supplied), after every
refresh and every custom/whitelist parse. -/
theorem blocked_set_dot_invariant (sources customs whites : List String)
    (x : String) (hx : x ∈ publishedBlocked sources customs whites) :
    ∃ t, x = t ++ "." := by
  unfold publishedBlocked at hx
  rcases mem_parseDomains hx with h2 | h2
  · rcases mem_parseDomains h2 with h3 | h3
    · exact mem_fetchBuffer h3
    · exact h3
  · exact h2

/-- Witness for the amended C6 at a one-source configuration. -/
theorem blocked_set_dot_invariant_witness :
    "a." ∈ publishedBlocked ["a"] [] []
    ∧ ∃ t, ("a." : String) = t ++ "." :=
  ⟨by decide, blocked_set_dot_invariant ["a"] [] [] "a." (by decide)⟩

/-! ## C7 -/

/-- A list with at least one element is not empty. -/
lemma isEmpty_false_of_length {α : Type} {t : List α} (ht : 1 ≤ t.length) :
    t.isEmpty = false := by
  cases t with
  | nil => simp at ht
  | cons a as => rfl

/-- The selection with no previous target and a nonempty pool draws from the
whole pool. -/
lemma pickCandidates_none {pool : List String} (hlen : 1 ≤ pool.length) :
    pickCandidates pool none = pool := by
  unfold pickCandidates
  show (if pool.isEmpty = true then [] else pool) = pool
  rw [isEmpty_false_of_length hlen, if_neg Bool.false_ne_true]

/-- The selection after a previous target that is still in the pool draws
from the pool with that first occurrence removed, provided something
remains. -/
lemma pickCandidates_mem {pool : List String} {l : String} (hl : l ∈ pool)
    (hlen : 1 ≤ (pool.erase l).length) :
    pickCandidates pool (some l) = pool.erase l := by
  unfold pickCandidates
  show (if (if l ∈ pool then pool.erase l else pool).isEmpty = true then [l]
        else (if l ∈ pool then pool.erase l else pool)) = pool.erase l
  rw [if_pos hl, isEmpty_false_of_length hlen, if_neg Bool.false_ne_true]

/-- The selection after a previous target that is absent from the pool draws
from the whole pool, provided it is nonempty. -/
lemma pickCandidates_not_mem {pool : List String} {l : String}
    (hl : l ∉ pool) (hlen : 1 ≤ pool.length) :
    pickCandidates pool (some l) = pool := by
  unfold pickCandidates
  show (if (if l ∈ pool then pool.erase l else pool).isEmpty = true then [l]
        else (if l ∈ pool then pool.erase l else pool)) = pool
  rw [if_neg hl, isEmpty_false_of_length hlen, if_neg Bool.false_ne_true]

/-- With at least two pool entries, every selected candidate is a pool
member (the fallback to the previous target is unreachable). -/
lemma pickCandidates_subset_pool {pool : List String} {last : Option String}
    {c : String} (hlen : 2 ≤ pool.length)
    (hc : c ∈ pickCandidates pool last) : c ∈ pool := by
  rcases last with _ | l
  · rw [pickCandidates_none (by omega)] at hc
    exact hc
  · by_cases hl : l ∈ pool
    · rw [pickCandidates_mem hl (by rw [List.length_erase_of_mem hl]; omega)]
        at hc
      exact List.mem_of_mem_erase hc
    · rw [pickCandidates_not_mem hl (by omega)] at hc
      exact hc

/-- C7, counterexample: the configured pool is a list, and with the
duplicate pool `["u", "u"]` of size 2, `list.remove` deletes only the first
occurrence of the previous target `u`, so the remainder is `["u"]` and the
next selection necessarily repeats the previous one. -/
theorem upstream_no_repeat_counterexample :
    2 ≤ (["u", "u"] : List String).length
    ∧ "u" ∈ pickCandidates ["u", "u"] none
    ∧ pickCandidates ["u", "u"] (some "u") = ["u"] := by
  decide

/-- C7 as amended: the selection copies the pool, removes the current
`last_target_doh` when present, draws from the remainder (falling back to
`last_target_doh` only when the remainder is empty) and records the choice
in `last_target_doh`; consequently, for every pool of at least two PAIRWISE
DISTINCT urls, two consecutive selections never choose the same url. -/
theorem upstream_no_repeat (pool : List String) (last0 : Option String)
    (c1 c2 : String) (hnd : pool.Nodup) (hlen : 2 ≤ pool.length)
    (h1 : c1 ∈ pickCandidates pool last0)
    (h2 : c2 ∈ pickCandidates pool (some c1)) : c2 ≠ c1 := by
  have hc1 : c1 ∈ pool := pickCandidates_subset_pool hlen h1
  rw [pickCandidates_mem hc1
      (by rw [List.length_erase_of_mem hc1]; omega)] at h2
  exact ((List.Nodup.mem_erase_iff hnd).mp h2).1

/-- Witness for the amended C7 at the two-element pool `[u1, u2]`. -/
theorem upstream_no_repeat_witness :
    (["u1", "u2"] : List String).Nodup
    ∧ "u1" ∈ pickCandidates ["u1", "u2"] none
    ∧ "u2" ∈ pickCandidates ["u1", "u2"] (some "u1")
    ∧ ("u2" : String) ≠ "u1" :=
  ⟨by decide, by decide, by decide,
   upstream_no_repeat ["u1", "u2"] none "u1" "u2" (by decide) (by decide)
     (by decide) (by decide)⟩

/-! ## C9 -/

/-- C9, counterexample: a prior fetch at minute 1439 (23:59 UTC of day 0)
and a load at minute 1441 (00:01 UTC of day 1) lie 2 minutes — well within
24 hours — apart, yet the load does NOT return early: the code compares
calendar days, not a 24-hour distance. -/
theorem load_early_return_counterexample :
    1441 - 1439 < 1440
    ∧ loadSkipsFetch false (some 1439) 1441 = false := by
  decide

/-- C9 as amended: with force off and a prior fetch timestamp present, the
load returns early without fetching if and only if the prior timestamp lies
on the same calendar day in UTC as now (not: within 24 hours of now). -/
theorem load_early_return_same_day (u now : Nat) (h : u ≤ now) :
    loadSkipsFetch false (some u) now = true ↔ dayOf now = dayOf u := by
  unfold loadSkipsFetch dayOf
  simp only [Bool.not_false, Bool.true_and, decide_eq_true_eq]
  rw [Nat.add_div_right _ (by norm_num : 0 < 1440)]
  constructor
  · intro hlt
    exact Nat.le_antisymm (Nat.lt_succ_iff.mp hlt)
      (Nat.div_le_div_right h)
  · intro he
    rw [he]
    exact Nat.lt_succ_self _

/-- Witness for the amended C9 at minutes 100 and 200 of day 0. -/
theorem load_early_return_same_day_witness :
    (100 : Nat) ≤ 200 ∧ loadSkipsFetch false (some 100) 200 = true :=
  ⟨by decide,
   (load_early_return_same_day 100 200 (by decide)).mpr (by decide)⟩

/-! ## C1 -/

/-- Positions delivering a value are in range. -/
lemma lt_of_get?_eq_some {α : Type} {l : List α} {i : Nat} {a : α}
    (h : l.get? i = some a) : i < l.length :=
  (List.get?_eq_some.mp h).1

/-- An active caller refers to some lock object. -/
lemma isActive_lockRef {pc : CallerPC} (h : pc.isActive = true) :
    ∃ g, pc.lockRef = some g ∧ (pc = .inLock g ∨ pc = .computing g) := by
  cases pc with
  | inLock g => exact ⟨g, rfl, Or.inl rfl⟩
  | computing g => exact ⟨g, rfl, Or.inr rfl⟩
  | idle => exact Bool.noConfusion h
  | haveRef g => exact Bool.noConfusion h
  | computed g => exact Bool.noConfusion h
  | released g => exact Bool.noConfusion h
  | done => exact Bool.noConfusion h

/-- The invariant holds initially. -/
lemma SFInv_init (n : Nat) : SFInv (SFInit n) := by
  intro _
  constructor
  · intro i pc hpc
    have hidle : pc = .idle :=
      List.eq_of_mem_replicate (List.get?_mem hpc)
    subst hidle
    refine ⟨rfl, ?_, ?_⟩
    · intro g hg
      exact Option.noConfusion hg
    · intro ha
      exact Bool.noConfusion ha
  · intro i j pci pcj hi _ hai _
    have hidle : pci = .idle :=
      List.eq_of_mem_replicate (List.get?_mem hi)
    subst hidle
    exact Bool.noConfusion hai

/-- Every interleaving step preserves the invariant. -/
lemma SFInv_step {s t : SFState} (hs : SFInv s) (hst : SFStep s t) :
    SFInv t := by
  cases hst with
  | getLockNew i hpc hnone =>
    intro hfd
    obtain ⟨h1, _⟩ := hs hfd
    have hnoref : ∀ j pc, s.pcs.get? j = some pc → pc.lockRef = none := by
      intro j pc hj
      cases hl : pc.lockRef with
      | none => rfl
      | some g =>
        have := (h1 j pc hj).2.1 g hl
        rw [hnone] at this
        exact Option.noConfusion this
    constructor
    · intro j pc hj
      by_cases hij : i = j
      · subst hij
        rw [show ({ s.setPc i (.haveRef s.gens) with
              lockEntry := some s.gens, gens := s.gens + 1,
              held := s.held ++ [false] } : SFState).pcs =
            s.pcs.set i (.haveRef s.gens) from rfl] at hj
        rw [List.get?_set_eq_of_lt _ (lt_of_get?_eq_some hpc)] at hj
        obtain rfl := Option.some_inj.mp hj
        refine ⟨rfl, ?_, ?_⟩
        · intro g hg
          obtain rfl := Option.some_inj.mp hg.symm
          rfl
        · intro ha
          exact Bool.noConfusion ha
      · rw [show ({ s.setPc i (.haveRef s.gens) with
              lockEntry := some s.gens, gens := s.gens + 1,
              held := s.held ++ [false] } : SFState).pcs =
            s.pcs.set i (.haveRef s.gens) from rfl,
            List.get?_set_ne _ _ hij] at hj
        refine ⟨(h1 j pc hj).1, ?_, ?_⟩
        · intro g hg
          rw [hnoref j pc hj] at hg
          exact Option.noConfusion hg
        · intro ha g hg
          rw [hnoref j pc hj] at hg
          exact Option.noConfusion hg
    · intro j k pcj pck hj hk haj hak
      by_cases hij : i = j
      · subst hij
        rw [show ({ s.setPc i (.haveRef s.gens) with
              lockEntry := some s.gens, gens := s.gens + 1,
              held := s.held ++ [false] } : SFState).pcs =
            s.pcs.set i (.haveRef s.gens) from rfl,
            List.get?_set_eq_of_lt _ (lt_of_get?_eq_some hpc)] at hj
        obtain rfl := Option.some_inj.mp hj
        exact Bool.noConfusion haj
      · rw [show ({ s.setPc i (.haveRef s.gens) with
              lockEntry := some s.gens, gens := s.gens + 1,
              held := s.held ++ [false] } : SFState).pcs =
            s.pcs.set i (.haveRef s.gens) from rfl,
            List.get?_set_ne _ _ hij] at hj
        obtain ⟨g, hg, _⟩ := isActive_lockRef haj
        rw [hnoref j pcj hj] at hg
        exact Option.noConfusion hg
  | getLockExisting i g hpc hsome =>
    intro hfd
    obtain ⟨h1, h2⟩ := hs hfd
    constructor
    · intro j pc hj
      by_cases hij : i = j
      · subst hij
        rw [show (s.setPc i (.haveRef g)).pcs = s.pcs.set i (.haveRef g)
              from rfl,
            List.get?_set_eq_of_lt _ (lt_of_get?_eq_some hpc)] at hj
        obtain rfl := Option.some_inj.mp hj
        refine ⟨rfl, ?_, ?_⟩
        · intro g2 hg2
          obtain rfl := Option.some_inj.mp hg2.symm
          exact hsome
        · intro ha
          exact Bool.noConfusion ha
      · rw [show (s.setPc i (.haveRef g)).pcs = s.pcs.set i (.haveRef g)
              from rfl,
            List.get?_set_ne _ _ hij] at hj
        exact h1 j pc hj
    · intro j k pcj pck hj hk haj hak
      by_cases hij : i = j
      · subst hij
        rw [show (s.setPc i (.haveRef g)).pcs = s.pcs.set i (.haveRef g)
              from rfl,
            List.get?_set_eq_of_lt _ (lt_of_get?_eq_some hpc)] at hj
        obtain rfl := Option.some_inj.mp hj
        exact Bool.noConfusion haj
      · by_cases hik : i = k
        · subst hik
          rw [show (s.setPc i (.haveRef g)).pcs = s.pcs.set i (.haveRef g)
                from rfl,
              List.get?_set_eq_of_lt _ (lt_of_get?_eq_some hpc)] at hk
          obtain rfl := Option.some_inj.mp hk
          exact Bool.noConfusion hak
        · rw [show (s.setPc i (.haveRef g)).pcs = s.pcs.set i (.haveRef g)
                from rfl,
              List.get?_set_ne _ _ hij] at hj
          rw [show (s.setPc i (.haveRef g)).pcs = s.pcs.set i (.haveRef g)
                from rfl,
              List.get?_set_ne _ _ hik] at hk
          exact h2 j k pcj pck hj hk haj hak
  | acquire i g hpc hfree =>
    intro hfd
    obtain ⟨h1, h2⟩ := hs hfd
    have hlei : s.lockEntry = some g := (h1 i _ hpc).2.1 g rfl
    have hnoact : ∀ j pcj, s.pcs.get? j = some pcj →
        pcj.isActive = false := by
      intro j pcj hj
      cases ha : pcj.isActive with
      | false => rfl
      | true =>
        exfalso
        obtain ⟨g2, hg2, _⟩ := isActive_lockRef ha
        have hle2 := (h1 j pcj hj).2.1 g2 hg2
        rw [hlei] at hle2
        have hgg : g2 = g := (Option.some_inj.mp hle2).symm
        have hheld := (h1 j pcj hj).2.2 ha g2 hg2
        rw [hgg, hfree] at hheld
        exact Bool.noConfusion (Option.some_inj.mp hheld)
    constructor
    · intro j pc hj
      by_cases hij : i = j
      · subst hij
        rw [show ((s.setPc i (.inLock g)).setHeld g true).pcs =
              s.pcs.set i (.inLock g) from rfl,
            List.get?_set_eq_of_lt _ (lt_of_get?_eq_some hpc)] at hj
        obtain rfl := Option.some_inj.mp hj
        refine ⟨rfl, ?_, ?_⟩
        · intro g2 hg2
          have hgg : g2 = g := (Option.some_inj.mp hg2).symm
          rw [hgg]
          exact hlei
        · intro _ g2 hg2
          have hgg : g2 = g := (Option.some_inj.mp hg2).symm
          rw [hgg]
          exact List.get?_set_eq_of_lt _ (lt_of_get?_eq_some hfree)
      · rw [show ((s.setPc i (.inLock g)).setHeld g true).pcs =
              s.pcs.set i (.inLock g) from rfl,
            List.get?_set_ne _ _ hij] at hj
        refine ⟨(h1 j pc hj).1, (h1 j pc hj).2.1, ?_⟩
        · intro ha
          rw [hnoact j pc hj] at ha
          exact Bool.noConfusion ha
    · intro j k pcj pck hj hk haj hak
      by_cases hij : i = j
      · by_cases hik : i = k
        · rw [← hij, ← hik]
        · exfalso
          rw [show ((s.setPc i (.inLock g)).setHeld g true).pcs =
                s.pcs.set i (.inLock g) from rfl,
              List.get?_set_ne _ _ hik] at hk
          rw [hnoact k pck hk] at hak
          exact Bool.noConfusion hak
      · exfalso
        rw [show ((s.setPc i (.inLock g)).setHeld g true).pcs =
              s.pcs.set i (.inLock g) from rfl,
            List.get?_set_ne _ _ hij] at hj
        rw [hnoact j pcj hj] at haj
        exact Bool.noConfusion haj
  | computeStart i g hpc =>
    intro hfd
    obtain ⟨h1, h2⟩ := hs hfd
    have hi := h1 i _ hpc
    constructor
    · intro j pc hj
      by_cases hij : i = j
      · subst hij
        rw [show ({ s.setPc i (.computing g) with
              fetchCalls := s.fetchCalls + 1 } : SFState).pcs =
            s.pcs.set i (.computing g) from rfl,
            List.get?_set_eq_of_lt _ (lt_of_get?_eq_some hpc)] at hj
        obtain rfl := Option.some_inj.mp hj
        refine ⟨rfl, ?_, ?_⟩
        · intro g2 hg2
          have hgg : g2 = g := (Option.some_inj.mp hg2).symm
          rw [hgg]
          exact hi.2.1 g rfl
        · intro _ g2 hg2
          have hgg : g2 = g := (Option.some_inj.mp hg2).symm
          rw [hgg]
          exact hi.2.2 rfl g rfl
      · rw [show ({ s.setPc i (.computing g) with
              fetchCalls := s.fetchCalls + 1 } : SFState).pcs =
            s.pcs.set i (.computing g) from rfl,
            List.get?_set_ne _ _ hij] at hj
        exact h1 j pc hj
    · intro j k pcj pck hj hk haj hak
      by_cases hij : i = j
      · by_cases hik : i = k
        · rw [← hij, ← hik]
        · rw [show ({ s.setPc i (.computing g) with
                fetchCalls := s.fetchCalls + 1 } : SFState).pcs =
              s.pcs.set i (.computing g) from rfl,
              List.get?_set_ne _ _ hik] at hk
          exact h2 j k (.inLock g) pck (hij ▸ hpc) hk rfl hak
      · rw [show ({ s.setPc i (.computing g) with
              fetchCalls := s.fetchCalls + 1 } : SFState).pcs =
            s.pcs.set i (.computing g) from rfl,
            List.get?_set_ne _ _ hij] at hj
        by_cases hik : i = k
        · exact h2 j k pcj (.inLock g) hj (hik ▸ hpc) haj rfl
        · rw [show ({ s.setPc i (.computing g) with
                fetchCalls := s.fetchCalls + 1 } : SFState).pcs =
              s.pcs.set i (.computing g) from rfl,
              List.get?_set_ne _ _ hik] at hk
          exact h2 j k pcj pck hj hk haj hak
  | computeEnd i g hpc =>
    intro hfd
    exact Bool.noConfusion hfd
  | release i g hpc =>
    intro hfd
    obtain ⟨h1, _⟩ := hs hfd
    exact Bool.noConfusion (h1 i _ hpc).1
  | unlock i g hpc =>
    intro hfd
    obtain ⟨h1, _⟩ := hs hfd
    exact Bool.noConfusion (h1 i _ hpc).1

/-- The invariant holds in every reachable state. -/
lemma SFInv_reach {n : Nat} {s : SFState}
    (h : SFReach (SFInit n) s) : SFInv s := by
  induction h with
  | refl => exact SFInv_init n
  | step _ hst ih => exact SFInv_step ih hst

/-- C1, counterexample: the complete two-caller interleaving
`sfTrace1 … sfTrace11, sfFinalState`, in which caller 1 looks up the shared
lock object before the first computation completes (both callers reach the
upstream stage concurrently), ends with `fetchCalls = 2` — each caller
invoked `fetch_func()` itself — and with caller 1 holding the result of its
OWN computation (value 1), not the result of the first computation
(value 0): `get_or_set` serializes the computations but does not share the
first result with the waiting caller. -/
theorem singleflight_counterexample :
    SFReach (SFInit 2) sfFinalState
    ∧ sfFinalState.fetchCalls = 2
    ∧ sfFinalState.results = [some 0, some 1] := by
  have h1 : SFReach (SFInit 2) sfTrace1 :=
    SFReach.step SFReach.refl (SFStep.getLockNew _ 0 rfl rfl)
  have h2 : SFReach (SFInit 2) sfTrace2 :=
    SFReach.step h1 (SFStep.getLockExisting _ 1 0 rfl rfl)
  have h3 : SFReach (SFInit 2) sfTrace3 :=
    SFReach.step h2 (SFStep.acquire _ 0 0 rfl rfl)
  have h4 : SFReach (SFInit 2) sfTrace4 :=
    SFReach.step h3 (SFStep.computeStart _ 0 0 rfl)
  have h5 : SFReach (SFInit 2) sfTrace5 :=
    SFReach.step h4 (SFStep.computeEnd _ 0 0 rfl)
  have h6 : SFReach (SFInit 2) sfTrace6 :=
    SFReach.step h5 (SFStep.release _ 0 0 rfl)
  have h7 : SFReach (SFInit 2) sfTrace7 :=
    SFReach.step h6 (SFStep.unlock _ 0 0 rfl)
  have h8 : SFReach (SFInit 2) sfTrace8 :=
    SFReach.step h7 (SFStep.acquire _ 1 0 rfl rfl)
  have h9 : SFReach (SFInit 2) sfTrace9 :=
    SFReach.step h8 (SFStep.computeStart _ 1 0 rfl)
  have h10 : SFReach (SFInit 2) sfTrace10 :=
    SFReach.step h9 (SFStep.computeEnd _ 1 0 rfl)
  have h11 : SFReach (SFInit 2) sfTrace11 :=
    SFReach.step h10 (SFStep.release _ 1 0 rfl)
  exact ⟨SFReach.step h11 (SFStep.unlock _ 1 0 rfl), rfl, rfl⟩

/-- C1 as amended: within the window of the first response — in every
reachable state in which no computation has yet completed — at most one
caller has a computation in flight: the per-key `asyncio.Lock` serializes
the callers until the first completion.  (Each waiting caller then issues
its own computation and receives its own result, as the counterexample
trace shows.) -/
theorem singleflight_window_exclusive (n : Nat) (s : SFState)
    (hr : SFReach (SFInit n) s) (hw : s.firstDone = false)
    (i j gi gj : Nat)
    (hi : s.pcs.get? i = some (.computing gi))
    (hj : s.pcs.get? j = some (.computing gj)) : i = j :=
  ((SFInv_reach hr) hw).2 i j _ _ hi hj rfl rfl

/-- Witness for the amended C1: in the reachable state `sfComputingState`
(two callers, caller 0 computing, nothing completed), the theorem applies
and identifies the computing callers. -/
theorem singleflight_window_exclusive_witness :
    SFReach (SFInit 2) sfComputingState
    ∧ sfComputingState.firstDone = false
    ∧ (0 : Nat) = 0 := by
  have hreach : SFReach (SFInit 2) sfComputingState :=
    SFReach.step
      (SFReach.step
        (SFReach.step SFReach.refl (SFStep.getLockNew (SFInit 2) 0 rfl rfl))
        (SFStep.acquire sfTrace1 0 0 rfl rfl))
      (SFStep.computeStart
        { pcs := [.inLock 0, .idle], lockEntry := some 0, gens := 1,
          held := [true], results := [none, none], fetchCalls := 0,
          firstDone := false } 0 0 rfl)
  exact ⟨hreach, rfl,
    singleflight_window_exclusive 2 sfComputingState hreach rfl 0 0 0 0
      rfl rfl⟩

end PMD
